import Mathlib

/- Shallow embedding of the vimercise repository (src/vimercise.js and
   src/daily.js).  A JavaScript string is modelled as a list of Unicode code
   points, one Nat per code point; utf16Len recovers the value of the
   JavaScript .length property, which counts UTF-16 code units (code points
   at or above 0x10000 occupy two units).  Positions handed to the editor
   component (cursor offsets) are modelled as Nat. -/

abbrev JStr := List Nat

/-- Value of the JavaScript .length property on the string modelled by a
code-point list: code points below 0x10000 count one UTF-16 unit, the rest
count two. -/
def utf16Len : JStr → Nat
  | [] => 0
  | c :: rest => (if c < 0x10000 then 1 else 2) + utf16Len rest

/-- The high-surrogate UTF-16 unit of a code point at or above 0x10000. -/
def highSurrogate (c : Nat) : Nat := 0xD800 + (c - 0x10000) / 0x400

/-- The low-surrogate UTF-16 unit of a code point at or above 0x10000. -/
def lowSurrogate (c : Nat) : Nat := 0xDC00 + (c - 0x10000) % 0x400

/-- JavaScript String.prototype.slice(0, n) on the code-point list model:
n counts UTF-16 units, so a code point below 0x10000 consumes one unit and
any other code point two; a cut falling between the two units of an astral
code point leaves its lone high surrogate, which the model keeps as a list
element of its own (JavaScript strings need not be well formed). -/
def utf16Take : JStr → Nat → JStr
  | _, 0 => []
  | [], _ + 1 => []
  | c :: rest, n + 1 =>
    if c < 0x10000 then c :: utf16Take rest n
    else if n = 0 then [highSurrogate c]
    else c :: utf16Take rest (n - 1)

/-- JavaScript String.prototype.slice(n) on the code-point list model, the
complement of utf16Take: a cut inside an astral code point leaves its lone
low surrogate. -/
def utf16Drop : JStr → Nat → JStr
  | l, 0 => l
  | [], _ + 1 => []
  | c :: rest, n + 1 =>
    if c < 0x10000 then utf16Drop rest n
    else if n = 0 then lowSurrogate c :: rest
    else utf16Drop rest (n - 1)

/-- Lookup of a property in a JavaScript object used as a string-keyed map
(progress.exercises, the daily progress object) and in the URLSearchParams
model: the value stored under key k, if any. -/
def lookupByKey {α : Type} (s : List (JStr × α)) (k : JStr) : Option α :=
  match s with
  | [] => none
  | e :: rest => if e.1 = k then some e.2 else lookupByKey rest k

/-- Property assignment obj[k] = v on a JavaScript object (and
URLSearchParams.set): an existing entry for k is replaced in place, a new
key is appended at the end. -/
def setByKey {α : Type} (s : List (JStr × α)) (k : JStr) (v : α) : List (JStr × α) :=
  match s with
  | [] => [(k, v)]
  | e :: rest => if e.1 = k then (k, v) :: rest else e :: setByKey rest k v

/-- JavaScript truthiness of an optional string property: false for an
absent property and for the empty string. -/
def jsTruthy : Option JStr → Bool
  | none => false
  | some s => !s.isEmpty

/-- Cursor normalization shared verbatim by checkSuccess in src/vimercise.js
(lines 579-582) and src/daily.js (lines 129-133): a non-null expected cursor
at or past the end of a non-empty text is moved to the last character. -/
def clampCursor (cursorPos : Option Nat) (len : Nat) : Option Nat :=
  match cursorPos with
  | none => none
  | some p => if len ≤ p ∧ 0 < len then some (len - 1) else some p

/-- The boolean success condition of checkSuccess (identical in both files):
text matches the parsed target, cursor matches the clamped expected cursor
(or the target recorded no cursor), and the editor reports normal mode.
finalParsed is the (text, cursorPos) pair produced by the cursor codec;
currentText and currentCursorPos come from the editor view, inNormalMode
from the vim plugin state (both external components). -/
def successCondition (finalParsed : JStr × Option Nat) (currentText : JStr)
    (currentCursorPos : Nat) (inNormalMode : Bool) : Bool :=
  let textMatches := currentText == finalParsed.1
  let expectedCursorPos := clampCursor finalParsed.2 (utf16Len finalParsed.1)
  let cursorMatches := expectedCursorPos == none || expectedCursorPos == some currentCursorPos
  textMatches && cursorMatches && inNormalMode

namespace Vimercise

/-- U+0332, the combining underline used as cursor marker (src/vimercise.js
line 449). -/
def COMBINING_UNDERLINE : Nat := 0x332

/-- The mathToAscii map built by the loops at src/vimercise.js lines 452-463:
mathematical monospace letters and digits map to their ASCII equivalents. -/
def mathToAscii (c : Nat) : Option Nat :=
  if 0x1D68A ≤ c ∧ c ≤ 0x1D6A3 then some (97 + (c - 0x1D68A))
  else if 0x1D670 ≤ c ∧ c ≤ 0x1D689 then some (65 + (c - 0x1D670))
  else if 0x1D7F6 ≤ c ∧ c ≤ 0x1D7FF then some (48 + (c - 0x1D7F6))
  else none

/-- The asciiToMath map (src/vimercise.js lines 506-509), the reverse of
mathToAscii: ASCII letters and digits map to mathematical monospace. -/
def asciiToMath (c : Nat) : Option Nat :=
  if 97 ≤ c ∧ c ≤ 122 then some (0x1D68A + (c - 97))
  else if 65 ≤ c ∧ c ≤ 90 then some (0x1D670 + (c - 65))
  else if 48 ≤ c ∧ c ≤ 57 then some (0x1D7F6 + (c - 48))
  else none

/-- The loop body of parseUnderlinedCursor (src/vimercise.js lines 475-495),
walking the code-point array with resultPos accumulator pos.  A character
followed by the combining underline records the cursor (a later underlined
character overwrites an earlier one, hence the getD), is translated through
mathToAscii, and the underline is skipped; an orphan combining underline is
dropped; every other character is copied. -/
def parseAux : JStr → Nat → JStr × Option Nat
  | [], _ => ([], none)
  | [c], _ => if c = COMBINING_UNDERLINE then ([], none) else ([c], none)
  | c :: c2 :: rest, pos =>
    if c2 = COMBINING_UNDERLINE then
      let r := parseAux rest (pos + 1)
      (((mathToAscii c).getD c) :: r.1, some (r.2.getD pos))
    else if c = COMBINING_UNDERLINE then
      parseAux (c2 :: rest) pos
    else
      let r := parseAux (c2 :: rest) (pos + 1)
      (c :: r.1, r.2)

/-- parseUnderlinedCursor (src/vimercise.js lines 467-498): strip the
underline cursor marker, returning plain text and optional cursor offset. -/
def parseUnderlinedCursor (text : JStr) : JStr × Option Nat :=
  parseAux text 0

/-- parseTextWithCursor (src/vimercise.js lines 501-503) is an alias for
parseUnderlinedCursor. -/
def parseTextWithCursor (text : JStr) : JStr × Option Nat :=
  parseUnderlinedCursor text

/-- The code points of the string "undefined": when the JavaScript code
writes chars[cursorPos] for an index past the end of the code-point array
(possible because the bounds check uses the UTF-16 .length), the undefined
element is coerced to this string by the + operator. -/
def undefinedChars : JStr := [117, 110, 100, 101, 102, 105, 110, 101, 100]

/-- insertUnderlinedCursor (src/vimercise.js lines 513-528).  Out-of-range
positions (the source also rejects negative ones, unrepresentable in Nat)
return the text unchanged; the range check uses the UTF-16 length while the
character array holds code points, so a position beyond the code-point count
but below the UTF-16 length hits the undefined-element branch: the array is
extended (holes join to the empty string) and undefined + underline coerces
to the string undefined followed by the underline. -/
def insertUnderlinedCursor (text : JStr) (cursorPos : Nat) : JStr :=
  if utf16Len text ≤ cursorPos then text
  else if h : cursorPos < text.length then
    let charAtPos := text.get ⟨cursorPos, h⟩
    let mathChar := (asciiToMath charAtPos).getD charAtPos
    text.take cursorPos ++ mathChar :: COMBINING_UNDERLINE :: text.drop (cursorPos + 1)
  else
    text ++ undefinedChars ++ [COMBINING_UNDERLINE]

/-- A progress record as written by updateExerciseProgress
(src/vimercise.js lines 304-308). -/
structure ProgressRecord where
  minKeystrokes : Nat
  solved : Bool
  lastAttempt : JStr
deriving DecidableEq

/-- The progress object persisted under the vimercise-progress key
(src/vimercise.js lines 276-286): a version number and a map from exercise
name to record. -/
structure ProgressData where
  version : Nat
  exercises : List (JStr × ProgressRecord)
deriving DecidableEq

/-- The default progress value, version 1 with no exercises. -/
def emptyProgress : ProgressData := ⟨1, []⟩

/-- loadProgress (src/vimercise.js lines 276-286).  stored models
localStorage.getItem (none when the key is absent); jsonParse models
JSON.parse on the external JSON library, returning none when it throws. -/
def loadProgress (stored : Option JStr) (jsonParse : JStr → Option ProgressData) :
    ProgressData :=
  match stored with
  | none => emptyProgress
  | some s =>
    match jsonParse s with
    | none => emptyProgress
    | some d => d

/-- updateExerciseProgress (src/vimercise.js lines 298-312): write a new
record when there is no existing one, the existing one is unsolved, or the
new keystroke count is strictly smaller; now models the
new Date().toISOString() timestamp. -/
def updateExerciseProgress (progress : ProgressData) (exerciseName : JStr)
    (keystrokeCount : Nat) (now : JStr) : ProgressData :=
  match lookupByKey progress.exercises exerciseName with
  | none =>
    { progress with
      exercises := setByKey progress.exercises exerciseName
        ⟨keystrokeCount, true, now⟩ }
  | some existing =>
    if !existing.solved || keystrokeCount < existing.minKeystrokes then
      { progress with
        exercises := setByKey progress.exercises exerciseName
          ⟨keystrokeCount, true, now⟩ }
    else progress

/-- A sequence of progress updates (name, keystroke count, timestamp)
applied from the initial empty store, modelling repeated solves. -/
def applyUpdates (us : List (JStr × Nat × JStr)) : ProgressData :=
  us.foldl (fun p u => updateExerciseProgress p u.1 u.2.1 u.2.2) emptyProgress

/-- An exercise object (src/vimercise.js): required name, description,
start and final texts (cursor markers encoded in the text), optional
category and hint properties, and the custom flag. -/
structure Exercise where
  name : JStr
  description : JStr
  start : JStr
  final : JStr
  category : Option JStr
  hint : Option JStr
  custom : Bool
deriving DecidableEq

/-- loadCustomExercises (src/vimercise.js lines 263-273), with the same
localStorage / JSON.parse modelling as loadProgress; the default is the
empty list. -/
def loadCustomExercises (stored : Option JStr)
    (jsonParse : JStr → Option (List Exercise)) : List Exercise :=
  match stored with
  | none => []
  | some s =>
    match jsonParse s with
    | none => []
    | some l => l

/-- Query-parameter key n. -/
def keyN : JStr := [110]

/-- Query-parameter key d. -/
def keyD : JStr := [100]

/-- Query-parameter key st. -/
def keyST : JStr := [115, 116]

/-- Query-parameter key tt. -/
def keyTT : JStr := [116, 116]

/-- Query-parameter key c. -/
def keyC : JStr := [99]

/-- Query-parameter key h. -/
def keyH : JStr := [104]

/-- buildShareUrl (src/vimercise.js lines 16-40) up to the URLSearchParams
serialization, which is an external lossless percent-encoding: the params
map built from the exercise.  Optional fields are set only when truthy. -/
def buildShareParams (ex : Exercise) : List (JStr × JStr) :=
  let ps := setByKey [] keyN ex.name
  let ps := setByKey ps keyD ex.description
  let ps := setByKey ps keyST ex.start
  let ps := setByKey ps keyTT ex.final
  let ps := if jsTruthy ex.category then setByKey ps keyC (ex.category.getD []) else ps
  let ps := if jsTruthy ex.hint then setByKey ps keyH (ex.hint.getD []) else ps
  ps

/-- parseExerciseFromUrl (src/vimercise.js lines 42-72), reading the params
map decoded from the URL: null unless n, st and tt are all present;
description falls back to the empty string; category and hint are copied
only when present; the result is marked custom. -/
def parseExerciseFromUrl (ps : List (JStr × JStr)) : Option Exercise :=
  if (lookupByKey ps keyN).isSome ∧ (lookupByKey ps keyST).isSome ∧
      (lookupByKey ps keyTT).isSome then
    some
      { name := (lookupByKey ps keyN).getD []
        description := (lookupByKey ps keyD).getD []
        start := (lookupByKey ps keyST).getD []
        final := (lookupByKey ps keyTT).getD []
        category := if (lookupByKey ps keyC).isSome then lookupByKey ps keyC else none
        hint := if (lookupByKey ps keyH).isSome then lookupByKey ps keyH else none
        custom := true }
  else none

/-- The mutable page state read and written by checkSuccess
(src/vimercise.js): the isSuccess flag, the keystroke counter, and the
persisted progress (the localStorage content behind
loadProgress/saveProgress). -/
structure VimState where
  isSuccess : Bool
  keystrokeCount : Nat
  progress : ProgressData
deriving DecidableEq

/-- checkSuccess (src/vimercise.js lines 570-625) as a state transition.
currentText, currentCursorPos and inNormalMode model the external editor
view and vim plugin; now models the timestamp.  On a rising edge the
success flag is set and progress is saved; when the condition fails an
existing success is revoked.  DOM effects (classes, read-only toggling,
focus, prompt) are outside the model. -/
def checkSuccess (ex : Exercise) (st : VimState) (currentText : JStr)
    (currentCursorPos : Nat) (inNormalMode : Bool) (now : JStr) : VimState :=
  let finalParsed := parseTextWithCursor ex.final
  if successCondition finalParsed currentText currentCursorPos inNormalMode then
    if st.isSuccess then st
    else
      { st with
        isSuccess := true
        progress := updateExerciseProgress st.progress ex.name st.keystrokeCount now }
  else
    if st.isSuccess then { st with isSuccess := false } else st

end Vimercise

namespace Daily

/-- The caret cursor marker of src/daily.js (line 23). -/
def CURSOR_MARKER : Nat := 94

/-- JavaScript String.prototype.indexOf restricted to a single-character
BMP needle (the caret): the UTF-16 code-unit index of the first occurrence,
or -1 when absent.  Each code point before the match contributes its unit
width (one below 0x10000, two otherwise); a BMP needle can never equal a
surrogate half, so the unit-level search of the built-in finds exactly the
code points equal to the needle, always at a code-point boundary. -/
def jsIndexOf : JStr → Nat → Int
  | [], _ => -1
  | c :: rest, a =>
    if c = a then 0
    else
      let r := jsIndexOf rest a
      if r = -1 then -1 else r + (if c < 0x10000 then 1 else 2)

/-- parseTextWithCursor (src/daily.js lines 26-35): markerIndex is the
UTF-16 code-unit index of the first caret from indexOf, the clean text is
slice(0, markerIndex) plus slice(markerIndex + 1) — removing exactly the
one-unit caret — and markerIndex itself becomes the cursor position; with
no caret the text is returned unchanged with a null cursor. -/
def parseTextWithCursor (text : JStr) : JStr × Option Nat :=
  let markerIndex := jsIndexOf text CURSOR_MARKER
  if markerIndex = -1 then (text, none)
  else
    (utf16Take text markerIndex.toNat ++ utf16Drop text (markerIndex.toNat + 1),
     some markerIndex.toNat)

/-- A daily progress record as written by saveDailyProgress
(src/daily.js lines 74-78). -/
structure DailyRecord where
  minKeystrokes : Nat
  solved : Bool
  solvedAt : JStr
deriving DecidableEq

/-- loadDailyProgress (src/daily.js lines 56-66): the stored value and the
external JSON.parse are modelled as in Vimercise.loadProgress; the default
is the empty object. -/
def loadDailyProgress (stored : Option JStr)
    (jsonParse : JStr → Option (List (JStr × DailyRecord))) :
    List (JStr × DailyRecord) :=
  match stored with
  | none => []
  | some s =>
    match jsonParse s with
    | none => []
    | some d => d

/-- saveDailyProgress (src/daily.js lines 69-81): write a record keyed by
the date string when there is none yet or the new keystroke count is
strictly smaller. -/
def saveDailyProgress (progress : List (JStr × DailyRecord)) (dateStr : JStr)
    (keystrokeCount : Nat) (now : JStr) : List (JStr × DailyRecord) :=
  match lookupByKey progress dateStr with
  | none => setByKey progress dateStr ⟨keystrokeCount, true, now⟩
  | some existing =>
    if keystrokeCount < existing.minKeystrokes then
      setByKey progress dateStr ⟨keystrokeCount, true, now⟩
    else progress

/-- A daily exercise (src/daily.js): dated, with start and final texts
carrying the caret marker. -/
structure DailyExercise where
  date : JStr
  description : JStr
  start : JStr
  final : JStr
  hint : Option JStr
deriving DecidableEq

/-- The mutable page state read and written by the daily checkSuccess. -/
structure DailyState where
  isSuccess : Bool
  keystrokeCount : Nat
  progress : List (JStr × DailyRecord)
deriving DecidableEq

/-- checkSuccess (src/daily.js lines 122-169) as a state transition; today
models formatDate(new Date()), the key under which a rising-edge success is
saved. -/
def checkSuccess (ex : DailyExercise) (st : DailyState) (currentText : JStr)
    (currentCursorPos : Nat) (inNormalMode : Bool) (today now : JStr) : DailyState :=
  let finalParsed := parseTextWithCursor ex.final
  if successCondition finalParsed currentText currentCursorPos inNormalMode then
    if st.isSuccess then st
    else
      { st with
        isSuccess := true
        progress := saveDailyProgress st.progress today st.keystrokeCount now }
  else
    if st.isSuccess then { st with isSuccess := false } else st

end Daily

/-- Proof-side predicate: the text contains two adjacent combining
underlines (the one input shape on which parseUnderlinedCursor emits a
combining underline into its output). -/
def hasAdjacentUnderlines : JStr → Bool
  | c :: c2 :: rest =>
    (decide (c = Vimercise.COMBINING_UNDERLINE) &&
      decide (c2 = Vimercise.COMBINING_UNDERLINE)) ||
      hasAdjacentUnderlines (c2 :: rest)
  | _ => false

/- Helper lemmas about the key-value store model. -/

theorem lookupByKey_setByKey {α : Type} (s : List (JStr × α)) (k k' : JStr) (v : α) :
    lookupByKey (setByKey s k v) k' = if k' = k then some v else lookupByKey s k' := by
  induction s with
  | nil =>
    by_cases h : k' = k
    · simp [setByKey, lookupByKey, h]
    · have h2 : ¬ k = k' := fun hh => h hh.symm
      simp [setByKey, lookupByKey, h, h2]
  | cons e rest ih =>
    by_cases hek : e.1 = k
    · subst hek
      by_cases h : k' = e.1
      · simp [setByKey, lookupByKey, h]
      · have h2 : ¬ e.1 = k' := fun hh => h hh.symm
        simp [setByKey, lookupByKey, h, h2]
    · by_cases h : k' = e.1
      · subst h
        simp [setByKey, lookupByKey, hek]
      · have h2 : ¬ e.1 = k' := fun hh => h hh.symm
        simp [setByKey, lookupByKey, hek, h, h2, ih]

theorem lookupByKey_setByKey_same {α : Type} (s : List (JStr × α)) (k : JStr) (v : α) :
    lookupByKey (setByKey s k v) k = some v := by
  simp [lookupByKey_setByKey]

theorem lookupByKey_setByKey_other {α : Type} (s : List (JStr × α)) (k k' : JStr) (v : α)
    (h : k' ≠ k) : lookupByKey (setByKey s k v) k' = lookupByKey s k' := by
  simp [lookupByKey_setByKey, h]

/- Helper lemmas about utf16Len and clampCursor. -/

theorem length_le_utf16Len (t : JStr) : t.length ≤ utf16Len t := by
  induction t with
  | nil => simp [utf16Len]
  | cons c rest ih =>
    simp only [utf16Len, List.length_cons]
    split <;> omega

theorem utf16Len_pos (t : JStr) (h : t ≠ []) : 0 < utf16Len t := by
  cases t with
  | nil => exact absurd rfl h
  | cons c rest =>
    simp only [utf16Len]
    split <;> omega

theorem clampCursor_some_of_pos (n len : Nat) (h : 0 < len) :
    clampCursor (some n) len = if len ≤ n then some (len - 1) else some n := by
  by_cases hle : len ≤ n <;> simp [clampCursor, hle, h]

theorem clampCursor_eq_none (cp : Option Nat) (len : Nat) :
    clampCursor cp len = none ↔ cp = none := by
  cases cp with
  | none => simp [clampCursor]
  | some p =>
    simp only [clampCursor]
    split <;> simp

/- Helper lemmas about successCondition and the two checkSuccess
transitions. -/

theorem successCondition_true_iff (fp : JStr × Option Nat) (cur : JStr) (pos : Nat)
    (nm : Bool) :
    successCondition fp cur pos nm = true ↔
      (cur = fp.1 ∧ (fp.2 = none ∨ clampCursor fp.2 (utf16Len fp.1) = some pos) ∧
        nm = true) := by
  simp only [successCondition, Bool.and_eq_true, Bool.or_eq_true, beq_iff_eq,
    clampCursor_eq_none]
  exact and_assoc

theorem vim_checkSuccess_isSuccess (ex : Vimercise.Exercise) (st : Vimercise.VimState)
    (cur : JStr) (pos : Nat) (nm : Bool) (now : JStr) :
    (Vimercise.checkSuccess ex st cur pos nm now).isSuccess =
      successCondition (Vimercise.parseTextWithCursor ex.final) cur pos nm := by
  unfold Vimercise.checkSuccess
  by_cases h : successCondition (Vimercise.parseTextWithCursor ex.final) cur pos nm <;>
    by_cases h2 : st.isSuccess <;> simp [h, h2]

theorem daily_checkSuccess_isSuccess (ex : Daily.DailyExercise) (st : Daily.DailyState)
    (cur : JStr) (pos : Nat) (nm : Bool) (today now : JStr) :
    (Daily.checkSuccess ex st cur pos nm today now).isSuccess =
      successCondition (Daily.parseTextWithCursor ex.final) cur pos nm := by
  unfold Daily.checkSuccess
  by_cases h : successCondition (Daily.parseTextWithCursor ex.final) cur pos nm <;>
    by_cases h2 : st.isSuccess <;> simp [h, h2]

/-- C1: the success check declares success exactly when the current editor
text equals the marker-stripped target text, the current cursor offset
equals the clamped target cursor offset (or the target has no marker), and
the editor reports normal mode; when any conjunct fails the resulting
success flag is false, so an existing success state is revoked.  Stated for
checkSuccess of src/vimercise.js (underline codec) and of src/daily.js
(caret codec). -/
theorem checkSuccess_success_iff :
    ∀ (ex : Vimercise.Exercise) (st : Vimercise.VimState) (cur : JStr) (pos : Nat)
      (nm : Bool) (now : JStr) (ex2 : Daily.DailyExercise) (st2 : Daily.DailyState)
      (cur2 : JStr) (pos2 : Nat) (nm2 : Bool) (today now2 : JStr),
      ((Vimercise.checkSuccess ex st cur pos nm now).isSuccess = true ↔
        (cur = (Vimercise.parseTextWithCursor ex.final).1 ∧
          ((Vimercise.parseTextWithCursor ex.final).2 = none ∨
            clampCursor (Vimercise.parseTextWithCursor ex.final).2
              (utf16Len (Vimercise.parseTextWithCursor ex.final).1) = some pos) ∧
          nm = true)) ∧
      ((Daily.checkSuccess ex2 st2 cur2 pos2 nm2 today now2).isSuccess = true ↔
        (cur2 = (Daily.parseTextWithCursor ex2.final).1 ∧
          ((Daily.parseTextWithCursor ex2.final).2 = none ∨
            clampCursor (Daily.parseTextWithCursor ex2.final).2
              (utf16Len (Daily.parseTextWithCursor ex2.final).1) = some pos2) ∧
          nm2 = true)) := by
  intro ex st cur pos nm now ex2 st2 cur2 pos2 nm2 today now2
  constructor
  · rw [vim_checkSuccess_isSuccess]
    exact successCondition_true_iff _ cur pos nm
  · rw [daily_checkSuccess_isSuccess]
    exact successCondition_true_iff _ cur2 pos2 nm2

/-- C3: for a parsed target with non-empty text and a recorded cursor, the
expected cursor offset used by the success check is the raw offset clamped
to the last character: offsets at or past the text length become length
minus one, smaller offsets are unchanged.  Stated for both codecs. -/
theorem clampCursor_expected_offset :
    ∀ (t1 : JStr) (n1 : Nat) (t2 : JStr) (n2 : Nat),
      (Vimercise.parseUnderlinedCursor t1).1 ≠ [] →
      (Vimercise.parseUnderlinedCursor t1).2 = some n1 →
      (Daily.parseTextWithCursor t2).1 ≠ [] →
      (Daily.parseTextWithCursor t2).2 = some n2 →
      (clampCursor (some n1) (utf16Len (Vimercise.parseUnderlinedCursor t1).1) =
        if utf16Len (Vimercise.parseUnderlinedCursor t1).1 ≤ n1 then
          some (utf16Len (Vimercise.parseUnderlinedCursor t1).1 - 1) else some n1) ∧
      (clampCursor (some n2) (utf16Len (Daily.parseTextWithCursor t2).1) =
        if utf16Len (Daily.parseTextWithCursor t2).1 ≤ n2 then
          some (utf16Len (Daily.parseTextWithCursor t2).1 - 1) else some n2) := by
  intro t1 n1 t2 n2 h1 _ h2 _
  exact ⟨clampCursor_some_of_pos _ _ (utf16Len_pos _ h1),
    clampCursor_some_of_pos _ _ (utf16Len_pos _ h2)⟩

/-- Witness for C3 at the targets a-underline (underline codec, cursor 0
below the length) and a-caret (caret codec, cursor 1 at the length of the
one-character clean text, clamped to 0). -/
theorem clampCursor_expected_offset_witness :
    (clampCursor (some 0) (utf16Len (Vimercise.parseUnderlinedCursor [97, 0x332]).1) =
      if utf16Len (Vimercise.parseUnderlinedCursor [97, 0x332]).1 ≤ 0 then
        some (utf16Len (Vimercise.parseUnderlinedCursor [97, 0x332]).1 - 1) else some 0) ∧
    (clampCursor (some 1) (utf16Len (Daily.parseTextWithCursor [97, 94]).1) =
      if utf16Len (Daily.parseTextWithCursor [97, 94]).1 ≤ 1 then
        some (utf16Len (Daily.parseTextWithCursor [97, 94]).1 - 1) else some 1) :=
  clampCursor_expected_offset [97, 0x332] 0 [97, 94] 1 (by decide) (by decide)
    (by decide) (by decide)

/-- C6: a missing stored value, and a stored value on which the external
JSON parse fails, make each of the three load operations return its empty
default (empty progress record set, empty custom-exercise list, empty daily
progress object). -/
theorem load_malformed_defaults :
    ∀ (s1 : JStr) (p1 : JStr → Option Vimercise.ProgressData)
      (s2 : JStr) (p2 : JStr → Option (List Vimercise.Exercise))
      (s3 : JStr) (p3 : JStr → Option (List (JStr × Daily.DailyRecord))),
      p1 s1 = none → p2 s2 = none → p3 s3 = none →
      Vimercise.loadProgress none p1 = Vimercise.emptyProgress ∧
      Vimercise.loadProgress (some s1) p1 = Vimercise.emptyProgress ∧
      Vimercise.loadCustomExercises none p2 = [] ∧
      Vimercise.loadCustomExercises (some s2) p2 = [] ∧
      Daily.loadDailyProgress none p3 = [] ∧
      Daily.loadDailyProgress (some s3) p3 = [] := by
  intro s1 p1 s2 p2 s3 p3 h1 h2 h3
  refine ⟨rfl, ?_, rfl, ?_, rfl, ?_⟩
  · simp [Vimercise.loadProgress, h1]
  · simp [Vimercise.loadCustomExercises, h2]
  · simp [Daily.loadDailyProgress, h3]

/-- Witness for C6 with a one-character stored value and a parse that
always fails. -/
theorem load_malformed_defaults_witness :
    Vimercise.loadProgress none (fun _ => none) = Vimercise.emptyProgress ∧
    Vimercise.loadProgress (some [120]) (fun _ => none) = Vimercise.emptyProgress ∧
    Vimercise.loadCustomExercises none (fun _ => none) = [] ∧
    Vimercise.loadCustomExercises (some [120]) (fun _ => none) = [] ∧
    Daily.loadDailyProgress none (fun _ => none) = [] ∧
    Daily.loadDailyProgress (some [120]) (fun _ => none) = [] :=
  load_malformed_defaults [120] (fun _ => none) [120] (fun _ => none) [120]
    (fun _ => none) rfl rfl rfl

/-- C10: updating progress for one key leaves every other key unchanged,
and whenever an update writes, the record it writes has the solved flag set
to true (it is exactly the new record with the given keystroke count and
timestamp).  Stated for updateExerciseProgress of src/vimercise.js and
saveDailyProgress of src/daily.js. -/
theorem update_progress_frame :
    ∀ (p : Vimercise.ProgressData) (name : JStr) (k : Nat) (t : JStr) (name2 : JStr)
      (s : List (JStr × Daily.DailyRecord)) (dk : JStr) (k2 : Nat) (t2 : JStr)
      (dk2 : JStr),
      name2 ≠ name → dk2 ≠ dk →
      lookupByKey (Vimercise.updateExerciseProgress p name k t).exercises name2 =
        lookupByKey p.exercises name2 ∧
      (Vimercise.updateExerciseProgress p name k t = p ∨
        lookupByKey (Vimercise.updateExerciseProgress p name k t).exercises name =
          some ⟨k, true, t⟩) ∧
      lookupByKey (Daily.saveDailyProgress s dk k2 t2) dk2 = lookupByKey s dk2 ∧
      (Daily.saveDailyProgress s dk k2 t2 = s ∨
        lookupByKey (Daily.saveDailyProgress s dk k2 t2) dk = some ⟨k2, true, t2⟩) := by
  intro p name k t name2 s dk k2 t2 dk2 hne hdne
  refine ⟨?_, ?_, ?_, ?_⟩
  · unfold Vimercise.updateExerciseProgress
    cases hl : lookupByKey p.exercises name with
    | none => simp [lookupByKey_setByKey_other _ _ _ _ hne]
    | some ex =>
      by_cases hc : (!ex.solved || decide (k < ex.minKeystrokes)) = true <;>
        simp [hc, lookupByKey_setByKey_other _ _ _ _ hne]
  · unfold Vimercise.updateExerciseProgress
    cases hl : lookupByKey p.exercises name with
    | none => exact Or.inr (by simp [lookupByKey_setByKey_same])
    | some ex =>
      by_cases hc : (!ex.solved || decide (k < ex.minKeystrokes)) = true
      · exact Or.inr (by simp [hc, lookupByKey_setByKey_same])
      · exact Or.inl (by simp [hc])
  · unfold Daily.saveDailyProgress
    cases hl : lookupByKey s dk with
    | none => simp [lookupByKey_setByKey_other _ _ _ _ hdne]
    | some ex =>
      by_cases hc : k2 < ex.minKeystrokes <;>
        simp [hc, lookupByKey_setByKey_other _ _ _ _ hdne]
  · unfold Daily.saveDailyProgress
    cases hl : lookupByKey s dk with
    | none => exact Or.inr (by simp [lookupByKey_setByKey_same])
    | some ex =>
      by_cases hc : k2 < ex.minKeystrokes
      · exact Or.inr (by simp [hc, lookupByKey_setByKey_same])
      · exact Or.inl (by simp [hc])

/-- Witness for C10 on small concrete stores and distinct keys. -/
theorem update_progress_frame_witness :
    lookupByKey (Vimercise.updateExerciseProgress Vimercise.emptyProgress [97] 1 []).exercises
      [98] = lookupByKey Vimercise.emptyProgress.exercises [98] ∧
    (Vimercise.updateExerciseProgress Vimercise.emptyProgress [97] 1 [] =
        Vimercise.emptyProgress ∨
      lookupByKey (Vimercise.updateExerciseProgress Vimercise.emptyProgress [97] 1 []).exercises
        [97] = some ⟨1, true, []⟩) ∧
    lookupByKey (Daily.saveDailyProgress [] [99] 2 []) [100] = lookupByKey ([] : List (JStr × Daily.DailyRecord)) [100] ∧
    (Daily.saveDailyProgress [] [99] 2 [] = ([] : List (JStr × Daily.DailyRecord)) ∨
      lookupByKey (Daily.saveDailyProgress [] [99] 2 []) [99] = some ⟨2, true, []⟩) :=
  update_progress_frame Vimercise.emptyProgress [97] 1 [] [98] [] [99] 2 [] [100]
    (by decide) (by decide)

/- Helper lemmas for C4: every record ever written by
updateExerciseProgress has solved = true, so on stores built from a
sequence of updates the update condition reduces to a strict improvement
check. -/

theorem update_preserves_solved (p : Vimercise.ProgressData) (n : JStr) (k : Nat)
    (t : JStr)
    (hp : ∀ nm r, lookupByKey p.exercises nm = some r → r.solved = true) :
    ∀ nm r,
      lookupByKey (Vimercise.updateExerciseProgress p n k t).exercises nm = some r →
        r.solved = true := by
  intro nm r hr
  unfold Vimercise.updateExerciseProgress at hr
  split at hr
  · simp only [lookupByKey_setByKey] at hr
    by_cases h2 : nm = n
    · rw [if_pos h2] at hr
      cases hr
      rfl
    · rw [if_neg h2] at hr
      exact hp nm r hr
  · split at hr
    · simp only [lookupByKey_setByKey] at hr
      by_cases h2 : nm = n
      · rw [if_pos h2] at hr
        cases hr
        rfl
      · rw [if_neg h2] at hr
        exact hp nm r hr
    · exact hp nm r hr

theorem applyUpdates_solved (us : List (JStr × Nat × JStr)) :
    ∀ nm r,
      lookupByKey (Vimercise.applyUpdates us).exercises nm = some r →
        r.solved = true := by
  have key : ∀ (vs : List (JStr × Nat × JStr)) (p : Vimercise.ProgressData),
      (∀ nm r, lookupByKey p.exercises nm = some r → r.solved = true) →
      ∀ nm r,
        lookupByKey
          (List.foldl (fun q u => Vimercise.updateExerciseProgress q u.1 u.2.1 u.2.2)
            p vs).exercises nm = some r → r.solved = true := by
    intro vs
    induction vs with
    | nil => intro p hp; simpa using hp
    | cons u rest ih =>
      intro p hp
      exact ih _ (update_preserves_solved p u.1 u.2.1 u.2.2 hp)
  intro nm r
  refine key us Vimercise.emptyProgress ?_ nm r
  intro nm2 r2 h
  simp [Vimercise.emptyProgress, lookupByKey] at h

/-- C4: on a store built by any sequence of progress updates from the empty
store, a further update either creates the first record for its key or
replaces the existing record only when the new keystroke count is strictly
smaller (otherwise the store is untouched), so the stored minimum keystroke
count for a key never increases.  Stated for updateExerciseProgress of
src/vimercise.js (key: exercise name) and saveDailyProgress of src/daily.js
(key: date string, where the store may be arbitrary). -/
theorem progress_min_keystrokes_monotone :
    ∀ (us1 : List (JStr × Nat × JStr)) (n1 : JStr) (k1 : Nat) (t1 : JStr)
      (us2 : List (JStr × Nat × JStr)) (n2 : JStr) (k2 : Nat) (t2 : JStr)
      (r : Vimercise.ProgressRecord)
      (s1 : List (JStr × Daily.DailyRecord)) (d1 : JStr) (j1 : Nat) (w1 : JStr)
      (s2 : List (JStr × Daily.DailyRecord)) (d2 : JStr) (j2 : Nat) (w2 : JStr)
      (rd : Daily.DailyRecord),
      lookupByKey (Vimercise.applyUpdates us1).exercises n1 = none →
      lookupByKey (Vimercise.applyUpdates us2).exercises n2 = some r →
      lookupByKey s1 d1 = none →
      lookupByKey s2 d2 = some rd →
      lookupByKey
        (Vimercise.updateExerciseProgress (Vimercise.applyUpdates us1) n1 k1 t1).exercises
        n1 = some ⟨k1, true, t1⟩ ∧
      ((k2 < r.minKeystrokes ∧
          lookupByKey
            (Vimercise.updateExerciseProgress (Vimercise.applyUpdates us2) n2 k2 t2).exercises
            n2 = some ⟨k2, true, t2⟩) ∨
        (r.minKeystrokes ≤ k2 ∧
          Vimercise.updateExerciseProgress (Vimercise.applyUpdates us2) n2 k2 t2 =
            Vimercise.applyUpdates us2)) ∧
      lookupByKey (Daily.saveDailyProgress s1 d1 j1 w1) d1 = some ⟨j1, true, w1⟩ ∧
      ((j2 < rd.minKeystrokes ∧
          lookupByKey (Daily.saveDailyProgress s2 d2 j2 w2) d2 = some ⟨j2, true, w2⟩) ∨
        (rd.minKeystrokes ≤ j2 ∧ Daily.saveDailyProgress s2 d2 j2 w2 = s2)) := by
  intro us1 n1 k1 t1 us2 n2 k2 t2 r s1 d1 j1 w1 s2 d2 j2 w2 rd h1 h2 h3 h4
  refine ⟨?_, ?_, ?_, ?_⟩
  · unfold Vimercise.updateExerciseProgress
    rw [h1]
    simp [lookupByKey_setByKey_same]
  · have hs : r.solved = true := applyUpdates_solved us2 n2 r h2
    unfold Vimercise.updateExerciseProgress
    rw [h2]
    by_cases hk : k2 < r.minKeystrokes
    · exact Or.inl ⟨hk, by simp [hs, hk, lookupByKey_setByKey_same]⟩
    · exact Or.inr ⟨Nat.le_of_not_lt hk, by simp [hs, hk]⟩
  · unfold Daily.saveDailyProgress
    rw [h3]
    simp [lookupByKey_setByKey_same]
  · unfold Daily.saveDailyProgress
    rw [h4]
    by_cases hk : j2 < rd.minKeystrokes
    · exact Or.inl ⟨hk, by simp [hk, lookupByKey_setByKey_same]⟩
    · exact Or.inr ⟨Nat.le_of_not_lt hk, by simp [hk]⟩

/-- Witness for C4: a fresh key, an improved solve (5 then 3 keystrokes)
and a non-improving daily attempt (7 then 9 keystrokes). -/
theorem progress_min_keystrokes_monotone_witness :
    lookupByKey
      (Vimercise.updateExerciseProgress (Vimercise.applyUpdates []) [97] 1 []).exercises
      [97] = some ⟨1, true, []⟩ ∧
    ((3 < (Vimercise.ProgressRecord.mk 5 true []).minKeystrokes ∧
        lookupByKey
          (Vimercise.updateExerciseProgress (Vimercise.applyUpdates [([98], 5, [])])
            [98] 3 []).exercises [98] = some ⟨3, true, []⟩) ∨
      ((Vimercise.ProgressRecord.mk 5 true []).minKeystrokes ≤ 3 ∧
        Vimercise.updateExerciseProgress (Vimercise.applyUpdates [([98], 5, [])]) [98] 3 [] =
          Vimercise.applyUpdates [([98], 5, [])])) ∧
    lookupByKey (Daily.saveDailyProgress [] [99] 2 []) [99] = some ⟨2, true, []⟩ ∧
    ((9 < (Daily.DailyRecord.mk 7 true []).minKeystrokes ∧
        lookupByKey (Daily.saveDailyProgress [([100], ⟨7, true, []⟩)] [100] 9 []) [100] =
          some ⟨9, true, []⟩) ∨
      ((Daily.DailyRecord.mk 7 true []).minKeystrokes ≤ 9 ∧
        Daily.saveDailyProgress [([100], ⟨7, true, []⟩)] [100] 9 [] =
          [([100], ⟨7, true, []⟩)])) :=
  progress_min_keystrokes_monotone [] [97] 1 [] [([98], 5, [])] [98] 3 []
    ⟨5, true, []⟩ [] [99] 2 [] [([100], ⟨7, true, []⟩)] [100] 9 [] ⟨7, true, []⟩
    (by decide) (by decide) (by decide) (by decide)

/- Equation helpers for parseAux, one per loop situation. -/

theorem parseAux_nil (pos : Nat) : Vimercise.parseAux [] pos = ([], none) := rfl

theorem parseAux_singleton (c : Nat) (pos : Nat)
    (h : c ≠ Vimercise.COMBINING_UNDERLINE) :
    Vimercise.parseAux [c] pos = ([c], none) := by
  simp [Vimercise.parseAux, h]

theorem parseAux_cons_underline (c : Nat) (rest : JStr) (pos : Nat) :
    Vimercise.parseAux (c :: Vimercise.COMBINING_UNDERLINE :: rest) pos =
      (((Vimercise.mathToAscii c).getD c) :: (Vimercise.parseAux rest (pos + 1)).1,
        some ((Vimercise.parseAux rest (pos + 1)).2.getD pos)) := rfl

theorem parseAux_cons_skip (c2 : Nat) (rest : JStr) (pos : Nat)
    (h : c2 ≠ Vimercise.COMBINING_UNDERLINE) :
    Vimercise.parseAux (Vimercise.COMBINING_UNDERLINE :: c2 :: rest) pos =
      Vimercise.parseAux (c2 :: rest) pos := by
  simp [Vimercise.parseAux, h]

theorem parseAux_cons_plain (c c2 : Nat) (rest : JStr) (pos : Nat)
    (hc : c ≠ Vimercise.COMBINING_UNDERLINE)
    (hc2 : c2 ≠ Vimercise.COMBINING_UNDERLINE) :
    Vimercise.parseAux (c :: c2 :: rest) pos =
      (c :: (Vimercise.parseAux (c2 :: rest) (pos + 1)).1,
        (Vimercise.parseAux (c2 :: rest) (pos + 1)).2) := by
  simp [Vimercise.parseAux, hc, hc2]

/- Helper lemmas about the two character maps. -/

theorem mathToAscii_ne_underline (c a : Nat) (h : Vimercise.mathToAscii c = some a) :
    a ≠ Vimercise.COMBINING_UNDERLINE := by
  unfold Vimercise.mathToAscii at h
  split_ifs at h with h1 h2 h3 <;>
    (injection h with h4; unfold Vimercise.COMBINING_UNDERLINE; omega)

theorem asciiToMath_ne_underline (c m : Nat) (h : Vimercise.asciiToMath c = some m) :
    m ≠ Vimercise.COMBINING_UNDERLINE := by
  unfold Vimercise.asciiToMath at h
  split_ifs at h with h1 h2 h3 <;>
    (injection h with h4; unfold Vimercise.COMBINING_UNDERLINE; omega)

theorem mathChar_roundtrip (c : Nat) (h : Vimercise.mathToAscii c = none) :
    (Vimercise.mathToAscii ((Vimercise.asciiToMath c).getD c)).getD
      ((Vimercise.asciiToMath c).getD c) = c := by
  by_cases h1 : 97 ≤ c ∧ c ≤ 122
  · have hA : (Vimercise.asciiToMath c).getD c = 0x1D68A + (c - 97) := by
      simp only [Vimercise.asciiToMath, if_pos h1, Option.getD_some]
    have hcond : 0x1D68A ≤ 0x1D68A + (c - 97) ∧ 0x1D68A + (c - 97) ≤ 0x1D6A3 := by
      omega
    have hB : Vimercise.mathToAscii (0x1D68A + (c - 97)) =
        some (97 + (0x1D68A + (c - 97) - 0x1D68A)) := by
      simp only [Vimercise.mathToAscii, if_pos hcond]
    rw [hA, hB, Option.getD_some]
    omega
  · by_cases h2 : 65 ≤ c ∧ c ≤ 90
    · have hA : (Vimercise.asciiToMath c).getD c = 0x1D670 + (c - 65) := by
        simp only [Vimercise.asciiToMath, if_neg h1, if_pos h2, Option.getD_some]
      have hc1 : ¬(0x1D68A ≤ 0x1D670 + (c - 65) ∧ 0x1D670 + (c - 65) ≤ 0x1D6A3) := by
        omega
      have hc2 : 0x1D670 ≤ 0x1D670 + (c - 65) ∧ 0x1D670 + (c - 65) ≤ 0x1D689 := by
        omega
      have hB : Vimercise.mathToAscii (0x1D670 + (c - 65)) =
          some (65 + (0x1D670 + (c - 65) - 0x1D670)) := by
        simp only [Vimercise.mathToAscii, if_neg hc1, if_pos hc2]
      rw [hA, hB, Option.getD_some]
      omega
    · by_cases h3 : 48 ≤ c ∧ c ≤ 57
      · have hA : (Vimercise.asciiToMath c).getD c = 0x1D7F6 + (c - 48) := by
          simp only [Vimercise.asciiToMath, if_neg h1, if_neg h2, if_pos h3,
            Option.getD_some]
        have hc1 : ¬(0x1D68A ≤ 0x1D7F6 + (c - 48) ∧ 0x1D7F6 + (c - 48) ≤ 0x1D6A3) := by
          omega
        have hc2 : ¬(0x1D670 ≤ 0x1D7F6 + (c - 48) ∧ 0x1D7F6 + (c - 48) ≤ 0x1D689) := by
          omega
        have hc3 : 0x1D7F6 ≤ 0x1D7F6 + (c - 48) ∧ 0x1D7F6 + (c - 48) ≤ 0x1D7FF := by
          omega
        have hB : Vimercise.mathToAscii (0x1D7F6 + (c - 48)) =
            some (48 + (0x1D7F6 + (c - 48) - 0x1D7F6)) := by
          simp only [Vimercise.mathToAscii, if_neg hc1, if_neg hc2, if_pos hc3]
        rw [hA, hB, Option.getD_some]
        omega
      · have hA : (Vimercise.asciiToMath c).getD c = c := by
          simp only [Vimercise.asciiToMath, if_neg h1, if_neg h2, if_neg h3,
            Option.getD_none]
        rw [hA, h]
        rfl

/- Induction lemmas about parseAux. -/

theorem parseAux_clean (l : JStr) (pos : Nat) :
    (∀ c ∈ l, c ≠ Vimercise.COMBINING_UNDERLINE) →
      Vimercise.parseAux l pos = (l, none) := by
  induction l, pos using Vimercise.parseAux.induct with
  | case1 x => intro _; rfl
  | case2 x => intro h; exact absurd rfl (h _ (by simp))
  | case3 c x hc => intro _; exact parseAux_singleton c x hc
  | case4 c rest pos ih =>
    intro h
    exact absurd rfl (h Vimercise.COMBINING_UNDERLINE (by simp))
  | case5 c2 rest pos hc2 ih => intro h; exact absurd rfl (h _ (by simp))
  | case6 c c2 rest pos hc2 hc ih =>
    intro h
    have ih2 := ih (fun x hx => h x (List.mem_cons_of_mem c hx))
    rw [parseAux_cons_plain c c2 rest pos hc hc2, ih2]

theorem parseAux_cursor_bound (l : JStr) (pos : Nat) :
    ∀ n, (Vimercise.parseAux l pos).2 = some n →
      pos ≤ n ∧ n < pos + (Vimercise.parseAux l pos).1.length := by
  induction l, pos using Vimercise.parseAux.induct with
  | case1 x => intro n h; simp [parseAux_nil] at h
  | case2 x => intro n h; simp [Vimercise.parseAux] at h
  | case3 c x hc => intro n h; simp [parseAux_singleton c x hc] at h
  | case4 c rest pos ih =>
    intro n h
    rw [parseAux_cons_underline] at h ⊢
    simp only [Option.some.injEq] at h
    cases hr : (Vimercise.parseAux rest (pos + 1)).2 with
    | none =>
      rw [hr] at h
      simp only [Option.getD_none] at h
      simp only [List.length_cons]
      omega
    | some m =>
      rw [hr] at h
      simp only [Option.getD_some] at h
      have hb := ih m hr
      simp only [List.length_cons]
      omega
  | case5 c2 rest pos hc2 ih =>
    intro n h
    rw [parseAux_cons_skip c2 rest pos hc2] at h ⊢
    exact ih n h
  | case6 c c2 rest pos hc2 hc ih =>
    intro n h
    rw [parseAux_cons_plain c c2 rest pos hc hc2] at h ⊢
    have hb := ih n h
    simp only [List.length_cons]
    omega

theorem hasAdjacentUnderlines_tail (x : Nat) (xs : JStr)
    (h : hasAdjacentUnderlines (x :: xs) = false) :
    hasAdjacentUnderlines xs = false := by
  cases xs with
  | nil => rfl
  | cons y ys =>
    simp only [hasAdjacentUnderlines, Bool.or_eq_false_iff] at h
    exact h.2

theorem parseAux_output_clean (l : JStr) (pos : Nat) :
    hasAdjacentUnderlines l = false →
      ∀ c ∈ (Vimercise.parseAux l pos).1, c ≠ Vimercise.COMBINING_UNDERLINE := by
  induction l, pos using Vimercise.parseAux.induct with
  | case1 x => intro _ c hc; simp [parseAux_nil] at hc
  | case2 x => intro _ c hc; simp [Vimercise.parseAux] at hc
  | case3 c x hc =>
    intro _ d hd
    rw [parseAux_singleton c x hc] at hd
    simp at hd
    subst hd
    exact hc
  | case4 c rest pos ih =>
    intro h d hd
    have hcu : c ≠ Vimercise.COMBINING_UNDERLINE := by
      intro he
      subst he
      simp [hasAdjacentUnderlines] at h
    rw [parseAux_cons_underline] at hd
    rcases List.mem_cons.mp hd with hde | hdm
    · subst hde
      cases hm : Vimercise.mathToAscii c with
      | none => simpa [hm] using hcu
      | some a =>
        have := mathToAscii_ne_underline c a hm
        simpa [hm] using this
    · have htail : hasAdjacentUnderlines rest = false :=
        hasAdjacentUnderlines_tail _ _ (hasAdjacentUnderlines_tail _ _ h)
      exact ih htail d hdm
  | case5 c2 rest pos hc2 ih =>
    intro h d hd
    rw [parseAux_cons_skip c2 rest pos hc2] at hd
    exact ih (hasAdjacentUnderlines_tail _ _ h) d hd
  | case6 c c2 rest pos hc2 hc ih =>
    intro h d hd
    rw [parseAux_cons_plain c c2 rest pos hc hc2] at hd
    rcases List.mem_cons.mp hd with hde | hdm
    · subst hde
      exact hc
    · exact ih (hasAdjacentUnderlines_tail _ _ h) d hdm

theorem parseAux_append (l1 rest : JStr) :
    ∀ pos, (∀ c ∈ l1, c ≠ Vimercise.COMBINING_UNDERLINE) →
      (∀ u ∈ rest.head?, u ≠ Vimercise.COMBINING_UNDERLINE) →
      Vimercise.parseAux (l1 ++ rest) pos =
        (l1 ++ (Vimercise.parseAux rest (pos + l1.length)).1,
          (Vimercise.parseAux rest (pos + l1.length)).2) := by
  induction l1 with
  | nil => intro pos _ _; simp
  | cons a l1t ih =>
    intro pos h hrest
    have ha : a ≠ Vimercise.COMBINING_UNDERLINE := h a (by simp)
    have ht : ∀ c ∈ l1t, c ≠ Vimercise.COMBINING_UNDERLINE :=
      fun c hc => h c (List.mem_cons_of_mem a hc)
    cases l1t with
    | nil =>
      cases rest with
      | nil =>
        simp only [List.append_nil, List.nil_append]
        rw [parseAux_singleton a pos ha, parseAux_nil]
        simp
      | cons m tail =>
        have hm : m ≠ Vimercise.COMBINING_UNDERLINE := by
          apply hrest
          rfl
        simp only [List.cons_append, List.nil_append]
        rw [parseAux_cons_plain a m tail pos ha hm]
        simp
    | cons b l1tt =>
      have hb : b ≠ Vimercise.COMBINING_UNDERLINE := ht b (by simp)
      have harg : pos + 1 + (b :: l1tt).length = pos + (a :: b :: l1tt).length := by
        simp only [List.length_cons]
        omega
      have step := ih (pos + 1) ht hrest
      rw [harg] at step
      simp only [List.cons_append]
      rw [parseAux_cons_plain a b (l1tt ++ rest) pos ha hb]
      rw [show b :: (l1tt ++ rest) = (b :: l1tt) ++ rest from rfl, step]
      simp

/-- C2 (counterexample): encoding then decoding is not the identity on all
texts and offsets.  On the text x underline y (the underline already in the
text) with cursor offset 2, the encoder underlines the y, and decoding
returns the text xy with cursor 1 instead of the original pair. -/
theorem encode_decode_roundtrip_cex :
    Vimercise.parseUnderlinedCursor (Vimercise.insertUnderlinedCursor [120, 0x332, 121] 2) ≠
      ([120, 0x332, 121], some 2) := by decide

/-- C2 (amended): for every text that contains no combining underline and no
mathematical monospace character of the codec alphabet, and every cursor
offset inside the text, encoding the cursor with insertUnderlinedCursor and
decoding with parseUnderlinedCursor recovers exactly the original text and
offset. -/
theorem encode_decode_roundtrip :
    ∀ (t : JStr) (pos : Nat),
      (∀ c ∈ t, c ≠ Vimercise.COMBINING_UNDERLINE ∧ Vimercise.mathToAscii c = none) →
      pos < t.length →
      Vimercise.parseUnderlinedCursor (Vimercise.insertUnderlinedCursor t pos) =
        (t, some pos) := by
  intro t pos h hlt
  have hg : ¬ (utf16Len t ≤ pos) := by
    have := length_le_utf16Len t
    omega
  unfold Vimercise.insertUnderlinedCursor
  rw [if_neg hg, dif_pos hlt]
  show Vimercise.parseUnderlinedCursor
      (t.take pos ++
        ((Vimercise.asciiToMath (t.get ⟨pos, hlt⟩)).getD (t.get ⟨pos, hlt⟩)) ::
          Vimercise.COMBINING_UNDERLINE :: t.drop (pos + 1)) = (t, some pos)
  have hmem : t.get ⟨pos, hlt⟩ ∈ t := t.get_mem pos hlt
  have hcU : t.get ⟨pos, hlt⟩ ≠ Vimercise.COMBINING_UNDERLINE := (h _ hmem).1
  have hcM : Vimercise.mathToAscii (t.get ⟨pos, hlt⟩) = none := (h _ hmem).2
  have hmath_ne :
      (Vimercise.asciiToMath (t.get ⟨pos, hlt⟩)).getD (t.get ⟨pos, hlt⟩) ≠
        Vimercise.COMBINING_UNDERLINE := by
    cases ham : Vimercise.asciiToMath (t.get ⟨pos, hlt⟩) with
    | none => simpa [ham] using hcU
    | some m => simpa [ham] using asciiToMath_ne_underline _ m ham
  have htake : ∀ c ∈ t.take pos, c ≠ Vimercise.COMBINING_UNDERLINE :=
    fun c hc => (h c (List.take_subset _ _ hc)).1
  have hdrop : ∀ c ∈ t.drop (pos + 1), c ≠ Vimercise.COMBINING_UNDERLINE :=
    fun c hc => (h c (List.drop_subset _ _ hc)).1
  have hhead : ∀ u ∈
      (((Vimercise.asciiToMath (t.get ⟨pos, hlt⟩)).getD (t.get ⟨pos, hlt⟩)) ::
        Vimercise.COMBINING_UNDERLINE :: t.drop (pos + 1)).head?,
      u ≠ Vimercise.COMBINING_UNDERLINE := by
    intro u hu
    simp only [List.head?_cons, Option.mem_def, Option.some.injEq] at hu
    subst hu
    exact hmath_ne
  unfold Vimercise.parseUnderlinedCursor
  rw [parseAux_append (t.take pos) _ 0 htake hhead]
  have hlen : (t.take pos).length = pos := by
    rw [List.length_take]
    omega
  rw [hlen, parseAux_cons_underline, parseAux_clean (t.drop (pos + 1)) _ hdrop,
    mathChar_roundtrip _ hcM]
  have hsplit : t.take pos ++ t.get ⟨pos, hlt⟩ :: t.drop (pos + 1) = t := by
    rw [List.get_eq_getElem, ← List.drop_eq_getElem_cons hlt, List.take_append_drop]
  simp [hsplit]

/-- Witness for C2 on the plain ASCII text ab with cursor offset 1. -/
theorem encode_decode_roundtrip_witness :
    Vimercise.parseUnderlinedCursor (Vimercise.insertUnderlinedCursor [97, 98] 1) =
      ([97, 98], some 1) :=
  encode_decode_roundtrip [97, 98] 1 (by decide) (by decide)

/-- C5 (counterexample): the caret codec can return a cursor offset equal to
the non-zero plain-text length.  On the text ab caret, the parsed text is ab
of length 2 and the returned offset is 2. -/
theorem parse_offset_range_cex :
    Daily.parseTextWithCursor [97, 98, 94] = ([97, 98], some 2) ∧
    (2 : Nat) = ([97, 98] : JStr).length ∧ ([97, 98] : JStr).length ≠ 0 := by decide

/- Helper lemmas about utf16Len, utf16Take, utf16Drop and jsIndexOf. -/

theorem utf16Len_append (a b : JStr) :
    utf16Len (a ++ b) = utf16Len a + utf16Len b := by
  induction a with
  | nil => simp [utf16Len]
  | cons c t ih =>
    rw [List.cons_append]
    simp only [utf16Len]
    rw [ih]
    omega

theorem utf16Take_zero (l : JStr) : utf16Take l 0 = [] := by
  cases l <;> rfl

theorem utf16Drop_zero (l : JStr) : utf16Drop l 0 = l := by
  cases l <;> rfl

theorem utf16Len_eq_zero (l : JStr) : utf16Len l = 0 ↔ l = [] := by
  cases l with
  | nil => simp [utf16Len]
  | cons c t =>
    simp only [utf16Len]
    constructor
    · intro h
      split at h <;> omega
    · intro h
      simp at h

theorem utf16Take_cons_bmp (c : Nat) (rest : JStr) (n : Nat) (hw : c < 0x10000) :
    utf16Take (c :: rest) (n + 1) = c :: utf16Take rest n := by
  simp [utf16Take, hw]

theorem utf16Take_cons_astral (c : Nat) (rest : JStr) (n : Nat) (hw : ¬ c < 0x10000) :
    utf16Take (c :: rest) (n + 1 + 1) = c :: utf16Take rest n := by
  simp [utf16Take, hw]

theorem utf16Drop_cons_bmp (c : Nat) (rest : JStr) (n : Nat) (hw : c < 0x10000) :
    utf16Drop (c :: rest) (n + 1) = utf16Drop rest n := by
  simp [utf16Drop, hw]

theorem utf16Drop_cons_astral (c : Nat) (rest : JStr) (n : Nat) (hw : ¬ c < 0x10000) :
    utf16Drop (c :: rest) (n + 1 + 1) = utf16Drop rest n := by
  simp [utf16Drop, hw]

theorem utf16Take_append (l1 rest : JStr) :
    utf16Take (l1 ++ rest) (utf16Len l1) = l1 := by
  induction l1 with
  | nil => simp [utf16Len, utf16Take_zero]
  | cons c l1t ih =>
    by_cases hw : c < 0x10000
    · have hlen : utf16Len (c :: l1t) = utf16Len l1t + 1 := by
        simp only [utf16Len]
        rw [if_pos hw]
        omega
      rw [List.cons_append, hlen, utf16Take_cons_bmp c (l1t ++ rest) (utf16Len l1t) hw,
        ih]
    · have hlen : utf16Len (c :: l1t) = utf16Len l1t + 1 + 1 := by
        simp only [utf16Len]
        rw [if_neg hw]
        omega
      rw [List.cons_append, hlen,
        utf16Take_cons_astral c (l1t ++ rest) (utf16Len l1t) hw, ih]

theorem utf16Drop_append (l1 rest : JStr) :
    utf16Drop (l1 ++ rest) (utf16Len l1) = rest := by
  induction l1 with
  | nil => simp [utf16Len, utf16Drop_zero]
  | cons c l1t ih =>
    by_cases hw : c < 0x10000
    · have hlen : utf16Len (c :: l1t) = utf16Len l1t + 1 := by
        simp only [utf16Len]
        rw [if_pos hw]
        omega
      rw [List.cons_append, hlen, utf16Drop_cons_bmp c (l1t ++ rest) (utf16Len l1t) hw,
        ih]
    · have hlen : utf16Len (c :: l1t) = utf16Len l1t + 1 + 1 := by
        simp only [utf16Len]
        rw [if_neg hw]
        omega
      rw [List.cons_append, hlen,
        utf16Drop_cons_astral c (l1t ++ rest) (utf16Len l1t) hw, ih]

theorem utf16Drop_after_bmp (p s : JStr) (c : Nat) (hw : c < 0x10000) :
    utf16Drop (p ++ c :: s) (utf16Len p + 1) = s := by
  have h1 : p ++ c :: s = (p ++ [c]) ++ s := by simp
  have h2 : utf16Len (p ++ [c]) = utf16Len p + 1 := by
    rw [utf16Len_append]
    simp only [utf16Len]
    rw [if_pos hw]
  rw [h1, ← h2, utf16Drop_append]

theorem jsIndexOf_eq_neg_one (l : JStr) (a : Nat) (h : a ∉ l) :
    Daily.jsIndexOf l a = -1 := by
  induction l with
  | nil => rfl
  | cons c rest ih =>
    rw [List.mem_cons] at h
    push_neg at h
    have hc : ¬ (c = a) := fun he => h.1 he.symm
    simp [Daily.jsIndexOf, hc, ih h.2]

theorem jsIndexOf_first (l : JStr) (a : Nat) :
    ∀ (i : Nat), l[i]? = some a → (∀ (j : Nat), j < i → l[j]? ≠ some a) →
      Daily.jsIndexOf l a = (utf16Len (l.take i) : Int) := by
  induction l with
  | nil => intro i hi _; simp at hi
  | cons c rest ih =>
    intro i hi hfirst
    by_cases hc : c = a
    · cases i with
      | zero => simp [Daily.jsIndexOf, hc, utf16Len]
      | succ i2 =>
        exact absurd (by simp [hc]) (hfirst 0 (Nat.succ_pos i2))
    · cases i with
      | zero =>
        simp at hi
        exact absurd hi hc
      | succ i2 =>
        have hi2 : rest[i2]? = some a := by simpa using hi
        have hfirst2 : ∀ j, j < i2 → rest[j]? ≠ some a := by
          intro j hj
          have := hfirst (j + 1) (by omega)
          simpa using this
        have hr := ih i2 hi2 hfirst2
        have hne : Daily.jsIndexOf rest a ≠ -1 := by
          rw [hr]
          omega
        simp only [Daily.jsIndexOf, hc, if_false, if_neg hne, hr, List.take_succ_cons,
          utf16Len]
        by_cases hw : c < 0x10000 <;> simp [hw] <;> omega

theorem parseTextWithCursor_first (t : JStr) (i : Nat)
    (h2 : t[i]? = some Daily.CURSOR_MARKER)
    (h3 : ∀ (j : Nat), j < i → t[j]? ≠ some Daily.CURSOR_MARKER) :
    Daily.parseTextWithCursor t =
      (t.take i ++ t.drop (i + 1), some (utf16Len (t.take i))) := by
  have hfi := jsIndexOf_first t Daily.CURSOR_MARKER i h2 h3
  have hlt : i < t.length := by
    by_contra hge
    push_neg at hge
    rw [List.getElem?_eq_none hge] at h2
    cases h2
  have hxi : t[i] = Daily.CURSOR_MARKER := by
    rw [List.getElem?_eq_getElem hlt] at h2
    exact Option.some.inj h2
  have hsplit : t = t.take i ++ Daily.CURSOR_MARKER :: t.drop (i + 1) := by
    conv_lhs => rw [← List.take_append_drop i t]
    rw [List.drop_eq_getElem_cons hlt, hxi]
  unfold Daily.parseTextWithCursor
  rw [hfi, if_neg (by omega), Int.toNat_ofNat]
  generalize hS : t.drop (i + 1) = s at hsplit ⊢
  generalize hP : t.take i = p at hsplit ⊢
  rw [hsplit, utf16Take_append p (Daily.CURSOR_MARKER :: s),
    utf16Drop_after_bmp p s Daily.CURSOR_MARKER (by decide)]

/-- C5 (amended): stripping the cursor marker always yields a well-defined
plain text with an optional cursor offset; the underline codec returns an
offset strictly below the plain-text length (so in the closed interval from
0 to length minus one), while the caret codec returns the UTF-16 string
index of the removed marker, which is at most the UTF-16 length of the
plain text — the measure the success check clamps against — and equals that
length exactly when the marker was the final character. -/
theorem parse_offset_range :
    ∀ (t1 : JStr) (n1 : Nat) (t2 : JStr) (i : Nat) (n2 : Nat),
      (Vimercise.parseUnderlinedCursor t1).2 = some n1 →
      t2[i]? = some Daily.CURSOR_MARKER →
      (∀ (j : Nat), j < i → t2[j]? ≠ some Daily.CURSOR_MARKER) →
      (Daily.parseTextWithCursor t2).2 = some n2 →
      n1 < (Vimercise.parseUnderlinedCursor t1).1.length ∧
      n2 ≤ utf16Len (Daily.parseTextWithCursor t2).1 ∧
      (n2 = utf16Len (Daily.parseTextWithCursor t2).1 ↔ t2.drop (i + 1) = []) := by
  intro t1 n1 t2 i n2 h1 h2 h3 h4
  have hp := parseTextWithCursor_first t2 i h2 h3
  rw [hp] at h4
  simp only [Option.some.injEq] at h4
  rw [hp]
  simp only [utf16Len_append]
  refine ⟨?_, ?_, ?_⟩
  · unfold Vimercise.parseUnderlinedCursor at h1 ⊢
    have hb := parseAux_cursor_bound t1 0 n1 h1
    omega
  · omega
  · constructor
    · intro he
      have h0 : utf16Len (t2.drop (i + 1)) = 0 := by omega
      exact (utf16Len_eq_zero _).mp h0
    · intro he
      rw [he]
      simp only [utf16Len]
      omega

/-- Witness for C5 at the underlined-a target (offset 0, length 1) and the
caret-then-a daily target (offset 0, strictly below the UTF-16 plain-text
length 1 since the caret is not the last character). -/
theorem parse_offset_range_witness :
    (0 : Nat) < (Vimercise.parseUnderlinedCursor [97, 0x332]).1.length ∧
    (0 : Nat) ≤ utf16Len (Daily.parseTextWithCursor [94, 97]).1 ∧
    ((0 : Nat) = utf16Len (Daily.parseTextWithCursor [94, 97]).1 ↔
      ([94, 97] : JStr).drop (0 + 1) = []) :=
  parse_offset_range [97, 0x332] 0 [94, 97] 0 0 (by decide) (by decide)
    (fun j hj => absurd hj (Nat.not_lt_zero j)) (by decide)

/-- C8 (counterexample): the output of parseUnderlinedCursor can contain a
combining underline, so decoding is not idempotent: on the input of two
adjacent combining underlines the output text is a single combining
underline, and parsing it again drops it. -/
theorem parse_idempotent_cex :
    (0x332 : Nat) ∈ (Vimercise.parseUnderlinedCursor [0x332, 0x332]).1 ∧
    Vimercise.parseUnderlinedCursor (Vimercise.parseUnderlinedCursor [0x332, 0x332]).1 ≠
      ((Vimercise.parseUnderlinedCursor [0x332, 0x332]).1, none) := by decide

/-- C8 (amended): for every input with no two adjacent combining underlines,
the plain text returned by parseUnderlinedCursor contains no combining
underline, and decoding it again returns that same text with a null cursor
position. -/
theorem parse_idempotent :
    ∀ t : JStr, hasAdjacentUnderlines t = false →
      Vimercise.COMBINING_UNDERLINE ∉ (Vimercise.parseUnderlinedCursor t).1 ∧
      Vimercise.parseUnderlinedCursor (Vimercise.parseUnderlinedCursor t).1 =
        ((Vimercise.parseUnderlinedCursor t).1, none) := by
  intro t h
  have hclean := parseAux_output_clean t 0 h
  constructor
  · intro hmem
    exact (hclean _ hmem) rfl
  · exact parseAux_clean _ 0 hclean

/-- Witness for C8 on the underlined-a text. -/
theorem parse_idempotent_witness :
    Vimercise.COMBINING_UNDERLINE ∉ (Vimercise.parseUnderlinedCursor [97, 0x332]).1 ∧
    Vimercise.parseUnderlinedCursor (Vimercise.parseUnderlinedCursor [97, 0x332]).1 =
      ((Vimercise.parseUnderlinedCursor [97, 0x332]).1, none) :=
  parse_idempotent [97, 0x332] (by decide)

/-- C9: in the daily caret codec, an input with no caret is returned
unchanged with a null cursor, and otherwise exactly the first caret is
removed (the clean text is the input with the character at the first caret
position deleted, so any later carets remain) and its index becomes the
cursor offset — the UTF-16 string index that String.prototype.indexOf
returns, i.e. the summed code-unit widths of the characters before the
caret, which coincides with the character position whenever no astral
character precedes the caret. -/
theorem caret_first_marker_only :
    ∀ (t1 t2 : JStr) (i : Nat),
      Daily.CURSOR_MARKER ∉ t1 →
      t2[i]? = some Daily.CURSOR_MARKER →
      (∀ (j : Nat), j < i → t2[j]? ≠ some Daily.CURSOR_MARKER) →
      Daily.parseTextWithCursor t1 = (t1, none) ∧
      Daily.parseTextWithCursor t2 =
        (t2.take i ++ t2.drop (i + 1), some (utf16Len (t2.take i))) := by
  intro t1 t2 i h1 h2 h3
  constructor
  · unfold Daily.parseTextWithCursor
    rw [if_pos (jsIndexOf_eq_neg_one t1 _ h1)]
  · exact parseTextWithCursor_first t2 i h2 h3

/-- Witness for C9 on the caret-free text a and the text of two carets, whose
first caret is at position 0 (so UTF-16 offset 0) and whose second caret
survives in the clean text. -/
theorem caret_first_marker_only_witness :
    Daily.parseTextWithCursor [97] = ([97], none) ∧
    Daily.parseTextWithCursor [94, 94] =
      (([94, 94] : JStr).take 0 ++ ([94, 94] : JStr).drop (0 + 1),
        some (utf16Len (([94, 94] : JStr).take 0))) :=
  caret_first_marker_only [97] [94, 94] 0 (by decide) (by decide)
    (fun j hj => absurd hj (Nat.not_lt_zero j))

/-- C7 (counterexample): a present-but-empty category is dropped by the
encoder, so decoding does not return the same category.  The exercise with
non-empty name, description, start and final and with category set to the
empty string decodes to an exercise with no category at all. -/
theorem share_url_roundtrip_cex :
    (Vimercise.parseExerciseFromUrl
        (Vimercise.buildShareParams ⟨[97], [98], [99], [100], some [], none, false⟩)).map
      Vimercise.Exercise.category ≠ some (some []) := by decide

/-- C7 (amended): for every exercise with non-empty name, description, start
and final, whose category and hint are non-empty whenever present, encoding
it as URL query parameters (buildShareParams, the params map behind
buildShareUrl) and decoding the result (parseExerciseFromUrl) yields an
exercise with the same name, description, start, final, category and hint,
marked custom; a present-but-empty category or hint is dropped by the
encoder, as the counterexample shows. -/
theorem share_url_roundtrip :
    ∀ (ex : Vimercise.Exercise),
      ex.name ≠ [] → ex.description ≠ [] → ex.start ≠ [] → ex.final ≠ [] →
      ex.category ≠ some [] → ex.hint ≠ some [] →
      Vimercise.parseExerciseFromUrl (Vimercise.buildShareParams ex) =
        some { name := ex.name, description := ex.description, start := ex.start,
               final := ex.final, category := ex.category, hint := ex.hint,
               custom := true } := by
  intro ex hn hd hs hf hc hh
  rcases ex with ⟨nm, ds, st, fin, cat, hint, cu⟩
  simp only at hn hd hs hf hc hh ⊢
  cases cat with
  | none =>
    cases hint with
    | none =>
      simp [Vimercise.buildShareParams, Vimercise.parseExerciseFromUrl, jsTruthy,
        setByKey, lookupByKey, Vimercise.keyN, Vimercise.keyD, Vimercise.keyST,
        Vimercise.keyTT, Vimercise.keyC, Vimercise.keyH]
    | some hv =>
      have hvne : hv ≠ [] := fun he => hh (by rw [he])
      simp [Vimercise.buildShareParams, Vimercise.parseExerciseFromUrl, jsTruthy,
        hvne, setByKey, lookupByKey, Vimercise.keyN,
        Vimercise.keyD, Vimercise.keyST, Vimercise.keyTT, Vimercise.keyC,
        Vimercise.keyH]
  | some cv =>
    have hcne : cv ≠ [] := fun he => hc (by rw [he])
    cases hint with
    | none =>
      simp [Vimercise.buildShareParams, Vimercise.parseExerciseFromUrl, jsTruthy,
        hcne, setByKey, lookupByKey, Vimercise.keyN,
        Vimercise.keyD, Vimercise.keyST, Vimercise.keyTT, Vimercise.keyC,
        Vimercise.keyH]
    | some hv =>
      have hvne : hv ≠ [] := fun he => hh (by rw [he])
      simp [Vimercise.buildShareParams, Vimercise.parseExerciseFromUrl, jsTruthy,
        hcne, hvne, setByKey,
        lookupByKey, Vimercise.keyN, Vimercise.keyD, Vimercise.keyST,
        Vimercise.keyTT, Vimercise.keyC, Vimercise.keyH]

/-- Witness for C7 on a small concrete exercise with a category and no
hint. -/
theorem share_url_roundtrip_witness :
    Vimercise.parseExerciseFromUrl
        (Vimercise.buildShareParams ⟨[97], [98], [99], [100], some [101], none, false⟩) =
      some { name := [97], description := [98], start := [99], final := [100],
             category := some [101], hint := none, custom := true } :=
  share_url_roundtrip ⟨[97], [98], [99], [100], some [101], none, false⟩
    (by decide) (by decide) (by decide) (by decide) (by decide) (by decide)
